import Mathlib

/-!
Shallow embedding of the SiltKV LSM key-value store (Go) used to check the
natural-language specification against the source.

Conventions of the embedding:
* A Go byte is a `Nat`; machine truncation is written `% 256` (resp. `% 2^32`,
  `% 2^64`) exactly where the Go code operates on fixed-width integers.
* A Go `[]byte` slice is `List Nat` when the code never distinguishes the nil
  slice, and `GoSlice := Option (List Nat)` where the nil/non-nil distinction
  is observable (`none` models the nil slice, `some l` a non-nil slice of
  contents `l`, possibly empty).  This distinction is load-bearing: the store
  encodes tombstones as nil values.
* Files are byte lists; buffered I/O is collapsed to the logical byte stream
  it produces (buffering changes only when bytes reach the OS, not their
  sequence).

The file is organised as definitions first (the embedding), then theorems.
-/

namespace SiltKV

/-- Go byte slice with an observable nil: `none` is the nil slice. -/
abbrev GoSlice := Option (List Nat)

/-- Go `len(b)` for a possibly-nil slice (nil has length 0). -/
def goLen : GoSlice → Nat
  | none => 0
  | some l => l.length

/-- Contents of a possibly-nil Go slice (nil reads as empty). -/
def goList : GoSlice → List Nat
  | none => []
  | some l => l

/-- utils.CopyBytes (src/internal/utils): deep copy; returns nil for nil input,
a fresh (non-nil) slice otherwise.  In value semantics the copy is the
identity on contents. -/
def copyBytes : GoSlice → GoSlice
  | none => none
  | some l => some l

/-- bytes.Compare: lexicographic comparison over unsigned byte order. -/
def bytesCompare : List Nat → List Nat → Ordering
  | [], [] => .eq
  | [], _ :: _ => .lt
  | _ :: _, [] => .gt
  | a :: as, b :: bs =>
    if a < b then .lt
    else if b < a then .gt
    else bytesCompare as bs

/-- Little-endian 4-byte encoding of a 32-bit value (binary.LittleEndian.PutUint32). -/
def u32le (n : Nat) : List Nat :=
  [n % 256, n / 256 % 256, n / 65536 % 256, n / 16777216 % 256]

/-- Little-endian read of four bytes as a 32-bit value
(binary.LittleEndian.Uint32); each byte is truncated to 8 bits as in Go. -/
def readU32 (a b c d : Nat) : Nat :=
  a % 256 + b % 256 * 256 + c % 256 * 65536 + d % 256 * 16777216

/-- Little-endian 8-byte encoding of a 64-bit value (binary.LittleEndian.PutUint64). -/
def u64le (n : Nat) : List Nat :=
  [n % 256, n / 2 ^ 8 % 256, n / 2 ^ 16 % 256, n / 2 ^ 24 % 256,
   n / 2 ^ 32 % 256, n / 2 ^ 40 % 256, n / 2 ^ 48 % 256, n / 2 ^ 56 % 256]

/-- Little-endian read of the 8 bytes of `l` starting at `off` as a 64-bit value
(binary.LittleEndian.Uint64). -/
def readU64At (l : List Nat) (off : Nat) : Nat :=
  l.getD off 0 % 256 + l.getD (off + 1) 0 % 256 * 2 ^ 8 +
  l.getD (off + 2) 0 % 256 * 2 ^ 16 + l.getD (off + 3) 0 % 256 * 2 ^ 24 +
  l.getD (off + 4) 0 % 256 * 2 ^ 32 + l.getD (off + 5) 0 % 256 * 2 ^ 40 +
  l.getD (off + 6) 0 % 256 * 2 ^ 48 + l.getD (off + 7) 0 % 256 * 2 ^ 56

/-- Modelled from the spec: CRC32 with the IEEE polynomial (hash/crc32
ChecksumIEEE, which is not part of the repository source).  One round of the
reflected bit-at-a-time update. -/
def crc32Round (r : Nat) : Nat :=
  if r % 2 = 1 then (r / 2) ^^^ 0xEDB88320 else r / 2

/-- Modelled from the spec: CRC32-IEEE byte update (8 reflected rounds after
xoring in the byte, truncated to 8 bits as Go bytes are). -/
def crc32Byte (crc b : Nat) : Nat :=
  crc32Round^[8] (crc ^^^ b % 256)

/-- Modelled from the spec: CRC32-IEEE checksum of a byte sequence
(initial value and final complement 0xFFFFFFFF). -/
def crc32 (data : List Nat) : Nat :=
  (data.foldl crc32Byte 0xFFFFFFFF) ^^^ 0xFFFFFFFF

/-! ## SortedMap (skiplist, src/unnamed/part_004)

The skiplist's geometric tower of forward pointers is a search accelerator for
its level-0 list, which holds all entries in ascending key order; the
operations below are the level-0 semantics of `SkipList.Put`, `SkipList.Get`
and the iterator.  Values are `GoSlice` because a nil value stored in a node
is a tombstone. -/

/-- SkipList.Put: insert keeping ascending key order, or replace the value of
an existing key in place (the node copies its inputs). -/
def slPut : List (List Nat × GoSlice) → List Nat → GoSlice → List (List Nat × GoSlice)
  | [], key, val => [(key, copyBytes val)]
  | (k, v) :: rest, key, val =>
    match bytesCompare k key with
    | .lt => (k, v) :: slPut rest key val
    | .eq => (k, copyBytes val) :: rest
    | .gt => (key, copyBytes val) :: (k, v) :: rest

/-- SkipList.Get: descend to the first node whose key is not below the target;
a hit on a nil (tombstone) value reports the key as not present
(`return nil, false`). -/
def slGet : List (List Nat × GoSlice) → List Nat → GoSlice × Bool
  | [], _ => (none, false)
  | (k, v) :: rest, key =>
    match bytesCompare k key with
    | .lt => slGet rest key
    | .eq => if v = none then (none, false) else (v, true)
    | .gt => (none, false)

/-! ## WAL (src/internal/wal/wal.go)

A WAL file is the concatenation of records
`checksum(4B LE) ‖ klen(4B LE) ‖ vlen(4B LE) ‖ key ‖ value`; the checksum is
CRC32-IEEE over `klen ‖ vlen ‖ key ‖ value`.  The writer's 64 KiB batch buffer
only delays when bytes reach the OS, so the writer state keeps the logical
byte stream. -/

def maxKeySize : Nat := 128
def maxValueSize : Nat := 4 * 1024
def headerSize : Nat := 12
def maxRecordSize : Nat := headerSize + maxKeySize + maxValueSize

/-- Checksummed payload of one WAL record: `klen ‖ vlen ‖ key ‖ value`
(the part of the record the CRC32 covers, WalWriter.Write buf[4:]). -/
def walPayload (key : List Nat) (value : GoSlice) : List Nat :=
  u32le key.length ++ u32le (goLen value) ++ key ++ goList value

/-- One encoded WAL record with an arbitrary stored checksum field. -/
def walRecordWithSum (sum : Nat) (key : List Nat) (value : GoSlice) : List Nat :=
  u32le sum ++ walPayload key value

/-- One encoded WAL record as WalWriter.Write produces it: stored checksum is
the CRC32 of the payload. -/
def walRecord (key : List Nat) (value : GoSlice) : List Nat :=
  walRecordWithSum (crc32 (walPayload key value)) key value

inductive WalErr where
  | invalidSize
  | closed
  | async
  deriving DecidableEq, Repr

/-- WAL writer state: closed flag, latched background-sync error, and the
logical byte stream written so far (batch buffer plus file contents). -/
structure WalState where
  closed : Bool
  asyncErr : Bool
  data : List Nat
  deriving DecidableEq, Repr

/-- WalWriter.Write: validate sizes first (fail fast, before any mutation),
then the closed flag and the latched async error, then append the encoded
record to the stream.  Returns the state after the call and the error. -/
def walWrite (w : WalState) (key : List Nat) (value : GoSlice) :
    WalState × Option WalErr :=
  if key.length > maxKeySize then (w, some .invalidSize)
  else if goLen value > maxValueSize then (w, some .invalidSize)
  else if key.length + goLen value > maxRecordSize - headerSize then (w, some .invalidSize)
  else if w.closed then (w, some .closed)
  else if w.asyncErr then (w, some .async)
  else ({ w with data := w.data ++ walRecord key value }, none)

/-- WalWriter.Load over the file's byte stream.  Returns the `(key, value)`
pairs passed to `apply` in order (`none` value for a vlen=0 tombstone) and the
skipped-record count.  A short header stops recovery; invalid sizes or a short
body count one skip and stop; a checksum mismatch counts one skip and
continues with the next record. -/
def walLoad (l : List Nat) : List (List Nat × GoSlice) × Nat :=
  if h : l.length < 12 then ([], 0)
  else
    let expectSum := readU32 (l.getD 0 0) (l.getD 1 0) (l.getD 2 0) (l.getD 3 0)
    let ksiz := readU32 (l.getD 4 0) (l.getD 5 0) (l.getD 6 0) (l.getD 7 0)
    let vsiz := readU32 (l.getD 8 0) (l.getD 9 0) (l.getD 10 0) (l.getD 11 0)
    if ksiz > maxKeySize ∨ vsiz > maxValueSize then ([], 1)
    else if ksiz + vsiz > maxRecordSize - headerSize then ([], 1)
    else if (l.drop 12).length < ksiz + vsiz then ([], 1)
    else
      let data := (l.drop 12).take (ksiz + vsiz)
      let actualSum := crc32 ([l.getD 4 0, l.getD 5 0, l.getD 6 0,
        l.getD 7 0, l.getD 8 0, l.getD 9 0, l.getD 10 0, l.getD 11 0] ++ data)
      let rest := walLoad (l.drop (12 + (ksiz + vsiz)))
      if expectSum ≠ actualSum then (rest.1, rest.2 + 1)
      else
        let key := data.take ksiz
        let value : GoSlice := if vsiz = 0 then none else some (data.drop ksiz)
        ((key, value) :: rest.1, rest.2)
termination_by l.length
decreasing_by
  simp only [List.length_drop]
  omega

/-- The pair `apply` receives for a record written with value `v`: a record
whose vlen field is 0 (either a nil value or a non-nil empty one) is replayed
as a nil value. -/
def walRecovered (key : List Nat) (value : GoSlice) : List Nat × GoSlice :=
  (key, if goLen value = 0 then none else some (goList value))

/-- A record whose sizes are within the WAL bounds (klen ≤ 128, vlen ≤ 4096). -/
def WalValidRecord (r : List Nat × GoSlice) : Prop :=
  r.1.length ≤ maxKeySize ∧ goLen r.2 ≤ maxValueSize

instance (r : List Nat × GoSlice) : Decidable (WalValidRecord r) := by
  unfold WalValidRecord; infer_instance

/-- Concatenation of the encodings of a sequence of records, as successive
WalWriter.Write calls leave them in the WAL file. -/
def walRecords : List (List Nat × GoSlice) → List Nat
  | [] => []
  | r :: rs => walRecord r.1 r.2 ++ walRecords rs

/-! ## Memtable (src/internal/memtable/memtable.go) -/

inductive MtErr where
  | frozen
  | wal (e : WalErr)
  deriving DecidableEq, Repr

/-- Memtable: skiplist contents, WAL writer, approximate size counter and the
frozen flag. -/
structure Memtable where
  entries : List (List Nat × GoSlice)
  wal : WalState
  size : Int
  frozen : Bool
  deriving DecidableEq, Repr

/-- Memtable.Put: refuse when frozen; write to the WAL first (an error there
leaves the skiplist untouched); then update the skiplist and the size counter
(subtracting the old entry only when it existed with a non-nil value, because
SkipList.Get reports tombstones as absent). -/
def mtPut (mt : Memtable) (key : List Nat) (value : GoSlice) : Memtable × Option MtErr :=
  if mt.frozen then (mt, some .frozen)
  else
    let we := walWrite mt.wal key value
    match we.2 with
    | some err => (mt, some (.wal err))
    | none =>
      let old := slGet mt.entries key
      let sizeDelta : Int :=
        if old.2 = true ∧ old.1 ≠ none then
          ((key.length : Int) + (goLen value : Int)) -
            ((key.length : Int) + (goLen old.1 : Int))
        else (key.length : Int) + (goLen value : Int)
      ({ mt with wal := we.1, entries := slPut mt.entries key value,
                 size := mt.size + sizeDelta }, none)

/-- Memtable.Get consults only the skiplist. -/
def mtGet (mt : Memtable) (key : List Nat) : GoSlice × Bool :=
  slGet mt.entries key

/-- Memtable.Delete is Put of a nil value (a tombstone). -/
def mtDelete (mt : Memtable) (key : List Nat) : Memtable × Option MtErr :=
  mtPut mt key none

/-- Skiplist contents recovered by Memtable.recoverFromWAL: each record Load
yields is replayed with SkipList.Put. -/
def mtRecoverEntries (walBytes : List Nat) : List (List Nat × GoSlice) :=
  (walLoad walBytes).1.foldl (fun es r => slPut es r.1 r.2) []

/-- Size counter recovered by Memtable.recoverFromWAL: a nil value adds only
the key length, otherwise key plus value length. -/
def mtRecoverSize (walBytes : List Nat) : Int :=
  (walLoad walBytes).1.foldl
    (fun s r => match r.2 with
      | none => s + (r.1.length : Int)
      | some v => s + (r.1.length : Int) + (v.length : Int)) 0

/-- NewMemtable bound to a WAL file holding `walBytes`: replays the file into
a fresh skiplist; the WAL writer continues appending after the existing
bytes. -/
def mtRecover (walBytes : List Nat) : Memtable :=
  { entries := mtRecoverEntries walBytes,
    wal := { closed := false, asyncErr := false, data := walBytes },
    size := mtRecoverSize walBytes,
    frozen := false }

/-! ## SSTable (src/internal/sstable/sstable.go)

An SST file is `[data blocks][block index][bloom filter][footer]`.  The model
keeps the data section as a byte list and the block index as its entry list;
`BlockIndexOffset` equals the data-section length.  Records in a block are
`klen(4B LE) ‖ vlen(4B LE) ‖ key ‖ value`. -/

def maxSSTableKeySize : Nat := 1 <<< 20
def maxSSTableValueSize : Nat := 4 <<< 20
def maxSSTableFileSize : Nat := 64 <<< 20
def BlockSize : Nat := 4 * 1024
def MagicNumber : Nat := 0x53494C544B56

/-- Records of a data section read in file order, following Iterator.Next:
stop on a short header, an oversized klen/vlen, or a record that would extend
past the section end.  The value of a vlen=0 record is the empty (non-nil)
tail of the record buffer.  The fuel (one unit per record read, at least 8
bytes each) makes the recursion structural; `sstRecords` supplies the section
length, which always suffices. -/
def sstRecordsAux : Nat → List Nat → List (List Nat × List Nat)
  | 0, _ => []
  | fuel + 1, l =>
    if l.length < 8 then []
    else
      let klen := readU32 (l.getD 0 0) (l.getD 1 0) (l.getD 2 0) (l.getD 3 0)
      let vlen := readU32 (l.getD 4 0) (l.getD 5 0) (l.getD 6 0) (l.getD 7 0)
      if klen > maxSSTableKeySize then []
      else if vlen > maxSSTableValueSize then []
      else if l.length < 8 + (klen + vlen) then []
      else
        let buf := (l.drop 8).take (klen + vlen)
        (buf.take klen, buf.drop klen) :: sstRecordsAux fuel (l.drop (8 + (klen + vlen)))

/-- Record sequence of a data section (Iterator.Next driven to exhaustion). -/
def sstRecords (l : List Nat) : List (List Nat × List Nat) :=
  sstRecordsAux l.length l

/-- SST writer state (sstable.Writer): bytes already written to the file, the
running file size, the block index built so far, the keys fed to the bloom
filter, the in-memory block buffer and the first key of the current block. -/
structure SSTWriter where
  fileData : List Nat
  fileSize : Nat
  blockIndex : List (List Nat × Nat)
  bloomKeys : List (List Nat)
  currentBlock : List Nat
  blockOffset : Nat
  firstKeyInBlock : GoSlice
  deriving Repr

/-- NewWriter on a fresh (truncated) file. -/
def newSSTWriter : SSTWriter :=
  { fileData := [], fileSize := 0, blockIndex := [], bloomKeys := [],
    currentBlock := [], blockOffset := 0, firstKeyInBlock := none }

/-- Writer.flushCurrentBlock: write the buffered block to the file, record its
(first key, offset) in the block index, and reset the buffer. -/
def flushCurrentBlock (w : SSTWriter) : SSTWriter :=
  if w.currentBlock.length = 0 then w
  else
    let blockOffset := w.fileSize
    let blockIndex' := match w.firstKeyInBlock with
      | some fk => w.blockIndex ++ [(fk, blockOffset)]
      | none => w.blockIndex
    { w with fileData := w.fileData ++ w.currentBlock,
             blockIndex := blockIndex',
             fileSize := w.fileSize + w.currentBlock.length,
             currentBlock := [],
             firstKeyInBlock := none,
             blockOffset := w.fileSize + w.currentBlock.length }

/-- Writer.writeRecordToBlock: remember the first key of a fresh block; when
the record would push a non-empty block past BlockSize, flush the block and
return true — note the Go code returns at that point without appending the
record anywhere; otherwise append `klen ‖ vlen ‖ key ‖ value` to the block
buffer and return false. -/
def writeRecordToBlock (w : SSTWriter) (key : List Nat) (value : GoSlice) :
    SSTWriter × Bool :=
  let recordSize := 8 + key.length + goLen value
  let w1 := if w.firstKeyInBlock = none then { w with firstKeyInBlock := some key } else w
  if w1.currentBlock.length + recordSize > BlockSize ∧ w1.currentBlock.length > 0 then
    (flushCurrentBlock w1, true)
  else
    ({ w1 with currentBlock := w1.currentBlock ++ u32le key.length ++ u32le (goLen value)
        ++ key ++ goList value }, false)

/-- Writer.WriteFromIterator: for each memtable entry in iterator (ascending)
order, add the key to the bloom filter and write the record to the current
block; the boolean result of writeRecordToBlock is discarded. -/
def writeFromIterator (w : SSTWriter) (entries : List (List Nat × GoSlice)) : SSTWriter :=
  entries.foldl
    (fun w r =>
      let w := { w with bloomKeys := w.bloomKeys ++ [r.1] }
      (writeRecordToBlock w r.1 r.2).1) w

/-- Writer.Write (single record, used by compaction): add the key to the bloom
filter, write the record to the current block (discarding the boolean), and
report the current file size. -/
def writerWrite (w : SSTWriter) (key : List Nat) (value : GoSlice) : SSTWriter × Nat :=
  let w := { w with bloomKeys := w.bloomKeys ++ [key] }
  let w := (writeRecordToBlock w key value).1
  (w, w.fileSize)

/-- Writer.Close, restricted to the data section: flush the residual block.
After this `fileData` is the file's complete data section (Close then appends
the serialized block index, the bloom filter bytes and the footer after it). -/
def writerClose (w : SSTWriter) : SSTWriter :=
  flushCurrentBlock w

/-- Reader-side view of one SST file produced by the writer: its data section
and its block index.  `BlockIndexOffset` is `data.length`.  The reader's bloom
filter is nil for every file this writer produces: Reader.initialize loads the
bloom section only when `BloomFilterOffset < BlockIndexOffset`, and the writer
lays the bloom filter after the block index, so the probe in Reader.Get is
skipped. -/
structure SST where
  data : List Nat
  index : List (List Nat × Nat)
  deriving Repr

/-- BlockIndex.FindBlock binary search loop: narrows `[left, right]` keeping
the offset of the last entry whose first key is ≤ the target.  Each iteration
shrinks the interval, so `entries.length + 1` units of fuel (supplied by
`findBlock`) always reach the exit condition. -/
def findBlockAux (entries : List (List Nat × Nat)) (key : List Nat) :
    Nat → Int → Int → Int → Int
  | 0, _, _, result => result
  | fuel + 1, left, right, result =>
    if left > right then result
    else
      let mid := (left + right) / 2
      let entry := entries.getD mid.toNat ([], 0)
      if bytesCompare entry.1 key ≠ .gt then
        findBlockAux entries key fuel (mid + 1) right (entry.2 : Int)
      else
        findBlockAux entries key fuel left (mid - 1) result

/-- BlockIndex.FindBlock: the offset of the last index entry whose first key
is ≤ the target, or -1 when there is none. -/
def findBlock (entries : List (List Nat × Nat)) (key : List Nat) : Int :=
  findBlockAux entries key (entries.length + 1) 0 ((entries.length : Int) - 1) (-1)

/-- Record scan inside one block (loop body of Reader.searchInBlock):
`.error` models io.ErrUnexpectedEOF on an oversized length field; a hit
returns an owned copy of the (possibly empty, non-nil) value.  Fuel as in
`sstRecordsAux`; `searchInBlock` supplies the block length. -/
def searchBlockRecords (key : List Nat) : Nat → List Nat → Except Unit (GoSlice × Bool)
  | 0, _ => .ok (none, false)
  | fuel + 1, blockData =>
    if blockData.length < 8 then .ok (none, false)
    else
      let klen := readU32 (blockData.getD 0 0) (blockData.getD 1 0)
        (blockData.getD 2 0) (blockData.getD 3 0)
      let vlen := readU32 (blockData.getD 4 0) (blockData.getD 5 0)
        (blockData.getD 6 0) (blockData.getD 7 0)
      if klen > maxSSTableKeySize ∨ vlen > maxSSTableValueSize then .error ()
      else if blockData.length < 8 + (klen + vlen) then .ok (none, false)
      else
        let recordKey := (blockData.drop 8).take klen
        match bytesCompare recordKey key with
        | .eq =>
          let recordValue := ((blockData.drop 8).take (klen + vlen)).drop klen
          .ok (copyBytes (some recordValue), true)
        | .gt => .ok (none, false)
        | .lt => searchBlockRecords key fuel (blockData.drop (8 + (klen + vlen)))

/-- Reader.searchInBlock: the block extends from its offset to the next
block's offset (first index entry with a larger offset) or to
BlockIndexOffset; read that slice of the file and scan it. -/
def searchInBlock (sst : SST) (key : List Nat) (blockOffset : Nat) :
    Except Unit (GoSlice × Bool) :=
  let blockIndexOffset := sst.data.length
  let blockEnd := match sst.index.find? (fun e => decide (e.2 > blockOffset)) with
    | some e => e.2
    | none => blockIndexOffset
  if blockEnd ≤ blockOffset then .ok (none, false)
  else
    let blockData := (sst.data.drop blockOffset).take (blockEnd - blockOffset)
    searchBlockRecords key blockData.length blockData

/-- Reader.Get on a new-format file: the bloom probe is skipped (no bloom
filter is ever loaded for writer-produced files, see `SST`); binary-search the
block index; a negative offset means not present; otherwise scan the block. -/
def readerGet (sst : SST) (key : List Nat) : Except Unit (GoSlice × Bool) :=
  let blockOffset := findBlock sst.index key
  if blockOffset < 0 then .ok (none, false)
  else searchInBlock sst key blockOffset.toNat

/-! ## Merge iterator (src/internal/sstable, merge iterator part) -/

/-- Smallest current key across the head records of the per-reader iterators
(MergeIterator.advance, first loop). -/
def minHeadKey (ls : List (List (List Nat × List Nat))) : Option (List Nat) :=
  ls.foldl
    (fun acc l => match l with
      | [] => acc
      | (k, _) :: _ => match acc with
        | none => some k
        | some m => if bytesCompare k m = .lt then some k else acc) none

/-- Value emitted for key `k`: the head value of the first (newest) iterator
positioned at `k` (MergeIterator.advance, current[0]). -/
def mergeValueFor : List (List (List Nat × List Nat)) → List Nat → GoSlice
  | [], _ => none
  | [] :: rest, k => mergeValueFor rest k
  | ((k', v) :: _) :: rest, k => if k' = k then some v else mergeValueFor rest k

/-- Advance every iterator whose head key equals `k` (MergeIterator.advance,
last loop). -/
def mergeAdvanceLists (ls : List (List (List Nat × List Nat))) (k : List Nat) :
    List (List (List Nat × List Nat)) :=
  ls.map (fun l => match l with
    | [] => []
    | (k', _) :: t => if k' = k then t else l)

/-- Record stream produced by the merge iterator.  The fuel is the total
record count: every advance consumes at least the head of the iterator that
provided the minimal key, so this many steps always drain the inputs. -/
def mergeRecordsAux : Nat → List (List (List Nat × List Nat)) → List (List Nat × GoSlice)
  | 0, _ => []
  | fuel + 1, ls =>
    match minHeadKey ls with
    | none => []
    | some k => (k, mergeValueFor ls k) :: mergeRecordsAux fuel (mergeAdvanceLists ls k)

/-- NewMergeIterator over per-reader record lists (readers newest first),
yielding records in ascending key order, ties resolved newest-first; the value
of a tombstone record is `some []` because Iterator.Next materialises the
record buffer and slices it, never producing a nil value. -/
def mergeRecords (ls : List (List (List Nat × List Nat))) : List (List Nat × GoSlice) :=
  mergeRecordsAux ((ls.map List.length).sum) ls

/-! ## Compaction (DB.compactSSTables, src/internal/lsm/db.go) -/

/-- One iteration of the compaction write loop: a record is skipped only when
its value is the nil slice (`value != nil` in Go); otherwise the output is
rolled when the current file would exceed maxSSTableFileSize, and the record
is written.  State: (closed output data sections, current writer). -/
def compactStep (st : List (List Nat) × SSTWriter) (r : List Nat × GoSlice) :
    List (List Nat) × SSTWriter :=
  if r.2 = none then st
  else
    let recordSize := 8 + r.1.length + goLen r.2
    let rolled :=
      if st.2.fileSize + recordSize > maxSSTableFileSize ∧ st.2.fileSize > 0 then
        (st.1 ++ [(writerClose st.2).fileData], newSSTWriter)
      else st
    (rolled.1, (writerWrite rolled.2 r.1 r.2).1)

/-- Data sections of the compaction output files for a merged record stream
(the last writer is closed and appended after the loop). -/
def compactOutputs (merged : List (List Nat × GoSlice)) : List (List Nat) :=
  let st := merged.foldl compactStep ([], newSSTWriter)
  st.1 ++ [(writerClose st.2).fileData]

/-- Compaction of a list of tables (newest first): merge their record streams
and write the merged records through the output writers. -/
def compactFromTables (tables : List SST) : List (List Nat) :=
  compactOutputs (mergeRecords (tables.map fun t => sstRecords t.data))

/-! ## Manifest (src/internal/lsm/manifest.go) -/

/-- appendToManifest: one path is appended as a new last line. -/
def appendToManifest (manifest : List String) (sstPath : String) : List String :=
  manifest ++ [sstPath]

/-- Open (src/internal/lsm/db.go): readers are opened from the manifest lines
in reverse order, so the in-memory vector is the reverse of the manifest. -/
def openSSTOrder (manifest : List String) : List String :=
  manifest.reverse

/-- DB.compactSSTables, in-memory replacement: keep the newer tables at the
front and put the merged outputs where the compacted tail was. -/
def compactReplaceTail (sstables : List String) (compactCount : Nat)
    (newOutputs : List String) : List String :=
  sstables.take (sstables.length - compactCount) ++ newOutputs

/-- rewriteManifest: the manifest lines become exactly the given paths in the
given order (DB.compactSSTables passes `currentPaths`, the in-memory
newest-first vector, verbatim). -/
def rewriteManifestLines (paths : List String) : List String :=
  paths

/-- Manifest contents after a successful compaction that replaced the
`compactCount`-table tail of the newest-first in-memory vector by
`newOutputs`. -/
def manifestAfterCompaction (sstables : List String) (compactCount : Nat)
    (newOutputs : List String) : List String :=
  rewriteManifestLines (compactReplaceTail sstables compactCount newOutputs)

/-! ## Footer (src/internal/sstable, bloom.go file, Footer part) -/

/-- Go uint64(i) for an int64 value: the two's-complement bit pattern. -/
def intToUInt64 (i : Int) : Nat :=
  (i % (2 ^ 64 : Int)).toNat

/-- Go int64(u) for a uint64 value. -/
def uint64ToInt (n : Nat) : Int :=
  if n < 2 ^ 63 then (n : Int) else (n : Int) - 2 ^ 64

/-- SSTable footer: four int64 fields. -/
structure Footer where
  bloomFilterOffset : Int
  blockIndexOffset : Int
  blockIndexSize : Int
  magicNumber : Int
  deriving DecidableEq, Repr

/-- Footer.Serialize: 32 bytes, four uint64 little-endian fields. -/
def footerSerialize (f : Footer) : List Nat :=
  u64le (intToUInt64 f.bloomFilterOffset) ++ u64le (intToUInt64 f.blockIndexOffset) ++
  u64le (intToUInt64 f.blockIndexSize) ++ u64le (intToUInt64 f.magicNumber)

/-- DeserializeFooter: needs at least 32 bytes; reads the four fields;
fails (io.ErrUnexpectedEOF) unless the magic field equals MagicNumber. -/
def deserializeFooter (data : List Nat) : Except Unit Footer :=
  if data.length < 32 then .error ()
  else
    let f : Footer :=
      { bloomFilterOffset := uint64ToInt (readU64At data 0),
        blockIndexOffset := uint64ToInt (readU64At data 8),
        blockIndexSize := uint64ToInt (readU64At data 16),
        magicNumber := uint64ToInt (readU64At data 24) }
    if f.magicNumber ≠ (MagicNumber : Int) then .error ()
    else .ok f

/-! ## Bloom filter (src/internal/sstable, bloom.go)

All `hashCount` hash functions are fnv.New32a, each Reset before use, so
every probe of a key computes the same FNV-1a hash.  The float64 sizing
formula of NewBloomFilter is not embedded; the operations are modelled over
an arbitrary filter state. -/

/-- FNV-1a 32-bit hash (hash/fnv New32a): offset basis 2166136261, prime
16777619, arithmetic mod 2^32, input bytes truncated to 8 bits. -/
def fnv32a (key : List Nat) : Nat :=
  key.foldl (fun h b => (h ^^^ b % 256) * 16777619 % 4294967296) 2166136261

/-- Bloom filter state: bit array (as bytes), bit count, hash-function count. -/
structure BloomFilter where
  bits : List Nat
  bitCount : Nat
  hashCount : Nat
  deriving DecidableEq, Repr

/-- Set bit `bitIndex`: or the mask into byte `bitIndex / 8`. -/
def setBloomBit (bits : List Nat) (bitIndex : Nat) : List Nat :=
  bits.set (bitIndex / 8) (bits.getD (bitIndex / 8) 0 ||| 1 <<< (bitIndex % 8))

/-- BloomFilter.Add: for each hash function (all fnv32a after Reset), set bit
`hash mod bitCount`. -/
def bloomAdd (bf : BloomFilter) (key : List Nat) : BloomFilter :=
  let bits' := (List.range bf.hashCount).foldl
    (fun bs _ => setBloomBit bs (fnv32a key % bf.bitCount)) bf.bits
  { bf with bits := bits' }

/-- BloomFilter.MayContain: false as soon as one probed bit is clear. -/
def bloomMayContain (bf : BloomFilter) (key : List Nat) : Bool :=
  (List.range bf.hashCount).all
    (fun _ =>
      let bitIndex := fnv32a key % bf.bitCount
      ¬ (bf.bits.getD (bitIndex / 8) 0 &&& 1 <<< (bitIndex % 8) = 0))

/-- Adding every key of a list in order. -/
def bloomAddAll (bf : BloomFilter) (keys : List (List Nat)) : BloomFilter :=
  keys.foldl bloomAdd bf

/-- BloomFilter.Bytes: `bitCount(4B LE) ‖ hashCount(4B LE) ‖ bits`. -/
def bloomBytes (bf : BloomFilter) : List Nat :=
  u32le bf.bitCount ++ u32le bf.hashCount ++ bf.bits

/-- LoadBloomFilter: needs 8 header bytes plus `(bitCount+7)/8` bit bytes. -/
def loadBloomFilter (data : List Nat) : Except Unit BloomFilter :=
  if data.length < 8 then .error ()
  else
    let bitCount := readU32 (data.getD 0 0) (data.getD 1 0) (data.getD 2 0) (data.getD 3 0)
    let hashCount := readU32 (data.getD 4 0) (data.getD 5 0) (data.getD 6 0) (data.getD 7 0)
    if data.length < 8 + (bitCount + 7) / 8 then .error ()
    else
      .ok { bits := (data.drop 8).take ((bitCount + 7) / 8),
            bitCount := bitCount, hashCount := hashCount }

/-! ## DB (src/internal/lsm/db.go) -/

/-- DB state visible to Get: the active and immutable memtables and the SST
reader vector (newest first). -/
structure DBState where
  active : Option Memtable
  immutable : Option Memtable
  sstables : List SST

/-- SST part of DB.Get: consult readers newest-first; a reader error is
logged and the next reader is consulted; the first reader that reports the key
present ends the search with its value — with no tombstone check. -/
def dbGetSSTables : List SST → List Nat → GoSlice × Bool
  | [], _ => (none, false)
  | sst :: rest, key =>
    match readerGet sst key with
    | .error _ => dbGetSSTables rest key
    | .ok (val, found) => if found then (val, true) else dbGetSSTables rest key

/-- DB.Get: active memtable, then immutable memtable, then SSTs newest-first.
A memtable hit with a non-nil value returns a copy; a memtable hit on a
tombstone would return not-found — but Memtable.Get (SkipList.Get) reports
tombstones as `found = false`, so that branch never fires and the search falls
through to older containers. -/
def dbGet (db : DBState) (key : List Nat) : GoSlice × Bool :=
  let sstResult := dbGetSSTables db.sstables key
  let immResult := match db.immutable with
    | some mt =>
      let r := mtGet mt key
      if r.2 then (if r.1 ≠ none then (copyBytes r.1, true) else (none, false))
      else sstResult
    | none => sstResult
  match db.active with
  | some mt =>
    let r := mtGet mt key
    if r.2 then (if r.1 ≠ none then (copyBytes r.1, true) else (none, false))
    else immResult
  | none => immResult

/-- First error among the Close calls DB.Close makes, in order: active
memtable, immutable memtable, each SST reader (db.go lines 518-536).
`hasActive`/`hasImm` model whether the captured pointers are non-nil;
`activeErr`/`immErr`/`sstErrs` the results of the respective Close calls. -/
def dbCloseFirstErr (hasActive hasImm : Bool) (activeErr immErr : Option String)
    (sstErrs : List (Option String)) : Option String :=
  let f1 : Option String := if hasActive then activeErr else none
  let f2 : Option String := if hasImm ∧ immErr ≠ none ∧ f1 = none then immErr else f1
  sstErrs.foldl (fun acc e => if e ≠ none ∧ acc = none then e else acc) f2

/-- DB.Close: returns nil immediately when there is no state to close;
otherwise closes everything, accumulating `firstErr` — and then executes
`return nil` (db.go line 538), discarding the accumulated error. -/
def dbClose (hasActive hasImm : Bool) (activeErr immErr : Option String)
    (sstErrs : List (Option String)) : Option String :=
  if ¬hasActive ∧ ¬hasImm ∧ sstErrs = [] then none
  else
    let _firstErr := dbCloseFirstErr hasActive hasImm activeErr immErr sstErrs
    none

/-! ## Fixture states for the counterexamples -/

/-- Reachable DB state for claim C1: `Put "k" "v"` was flushed into an SST,
then `Delete "k"` wrote a tombstone into the (fresh) active memtable.  The SST
data section holds the single record key=[107] ("k"), value=[118] ("v"); its
block index has that block at offset 0. -/
def c1State : DBState :=
  { active := some
      { entries := [([107], none)],
        wal := { closed := false, asyncErr := false,
                 data := walRecord [107] none },
        size := 1, frozen := false },
    immutable := none,
    sstables := [{ data := [1, 0, 0, 0, 1, 0, 0, 0, 107, 118],
                   index := [([107], 0)] }] }

/-- Input records for claim C2: two records of 3009 encoded bytes each; the
second one overflows the 4096-byte block that holds the first. -/
def c2Entries : List (List Nat × GoSlice) :=
  [([1], some (List.replicate 3000 7)), ([2], some (List.replicate 3000 9))]

/-- Input table for claim C3: one SST whose data section holds a single
tombstone record (key [120] = "x", vlen = 0). -/
def c3Table : SST :=
  { data := [1, 0, 0, 0, 0, 0, 0, 0, 120], index := [([120], 0)] }

/-- A freshly created memtable (NewMemtable on an absent WAL file): empty
skiplist, open empty WAL, zero size, not frozen. -/
def freshMemtable : Memtable :=
  { entries := [], wal := { closed := false, asyncErr := false, data := [] },
    size := 0, frozen := false }

/-! ## Theorems -/

theorem readU32_u32le {n : Nat} (h : n < 2 ^ 32) :
    readU32 (n % 256) (n / 256 % 256) (n / 65536 % 256) (n / 16777216 % 256) = n := by
  unfold readU32
  omega

theorem crc32Round_lt {r : Nat} (h : r < 2 ^ 32) : crc32Round r < 2 ^ 32 := by
  unfold crc32Round
  split
  · exact Nat.xor_lt_two_pow (by omega) (by norm_num)
  · omega

theorem crc32Byte_lt {crc : Nat} (h : crc < 2 ^ 32) (b : Nat) :
    crc32Byte crc b < 2 ^ 32 := by
  unfold crc32Byte
  have hb : b % 256 < 2 ^ 32 := lt_trans (Nat.mod_lt b (by norm_num)) (by norm_num)
  have base : crc ^^^ b % 256 < 2 ^ 32 := Nat.xor_lt_two_pow h hb
  have step : ∀ k r, r < 2 ^ 32 → crc32Round^[k] r < 2 ^ 32 := by
    intro k
    induction k with
    | zero => intro r hr; simpa using hr
    | succ k ih =>
      intro r hr
      rw [Function.iterate_succ_apply]
      exact ih _ (crc32Round_lt hr)
  exact step 8 _ base

theorem crc32_lt (data : List Nat) : crc32 data < 2 ^ 32 := by
  unfold crc32
  have main : ∀ (l : List Nat) (a : Nat), a < 2 ^ 32 → l.foldl crc32Byte a < 2 ^ 32 := by
    intro l
    induction l with
    | nil => intro a ha; simpa using ha
    | cons x xs ih =>
      intro a ha
      simpa using ih (crc32Byte a x) (crc32Byte_lt ha x)
  exact Nat.xor_lt_two_pow (main data _ (by norm_num)) (by norm_num)

theorem take_len_append (a b : List Nat) : (a ++ b).take a.length = a := by
  induction a with
  | nil => simp
  | cons x t ih => simp [ih]

theorem drop_len_append (a b : List Nat) : (a ++ b).drop a.length = b := by
  induction a with
  | nil => simp
  | cons x t ih => simp [ih]

theorem take_len_add_append (a b : List Nat) (n : Nat) :
    (a ++ b).take (a.length + n) = a ++ b.take n := by
  induction a with
  | nil => simp
  | cons x t ih => simp [Nat.succ_add, ih]

theorem drop_len_add_append (a b : List Nat) (n : Nat) :
    (a ++ b).drop (a.length + n) = b.drop n := by
  induction a with
  | nil => simp
  | cons x t ih => simp [Nat.succ_add, ih]

theorem drop_12_cons (a b c d e f g h i j k m : Nat) (t : List Nat) (n : Nat) :
    List.drop (12 + n) (a :: b :: c :: d :: e :: f :: g :: h :: i :: j :: k :: m :: t) =
    List.drop n t := by
  have hc : a :: b :: c :: d :: e :: f :: g :: h :: i :: j :: k :: m :: t
      = [a, b, c, d, e, f, g, h, i, j, k, m] ++ t := rfl
  have h12 : 12 + n = ([a, b, c, d, e, f, g, h, i, j, k, m] : List Nat).length + n := by simp
  rw [hc, h12, drop_len_add_append]

/-- Behavior of WalWriter.Load on a stream starting with one framing-intact
record (stored checksum `s`, sizes within bounds): a matching checksum
recovers the record and recovery continues; a mismatch counts one skip and
recovery continues at the next record boundary. -/
theorem walLoad_record (s : Nat) (key : List Nat) (value : GoSlice) (rest : List Nat)
    (hs : s < 2 ^ 32) (hk : key.length ≤ maxKeySize) (hv : goLen value ≤ maxValueSize) :
    walLoad (walRecordWithSum s key value ++ rest) =
      if s = crc32 (walPayload key value) then
        (walRecovered key value :: (walLoad rest).1, (walLoad rest).2)
      else ((walLoad rest).1, (walLoad rest).2 + 1) := by
  have hvl : (goList value).length = goLen value := by
    cases value <;> simp [goList, goLen]
  have hform : walRecordWithSum s key value ++ rest =
      s % 256 :: (s / 256 % 256) :: (s / 65536 % 256) :: (s / 16777216 % 256) ::
      (key.length % 256) :: (key.length / 256 % 256) :: (key.length / 65536 % 256) ::
      (key.length / 16777216 % 256) ::
      (goLen value % 256) :: (goLen value / 256 % 256) :: (goLen value / 65536 % 256) ::
      (goLen value / 16777216 % 256) :: (key ++ (goList value ++ rest)) := by
    simp [walRecordWithSum, walPayload, u32le]
  rw [hform, walLoad]
  have hlen : ¬ (s % 256 :: (s / 256 % 256) :: (s / 65536 % 256) :: (s / 16777216 % 256) ::
      (key.length % 256) :: (key.length / 256 % 256) :: (key.length / 65536 % 256) ::
      (key.length / 16777216 % 256) ::
      (goLen value % 256) :: (goLen value / 256 % 256) :: (goLen value / 65536 % 256) ::
      (goLen value / 16777216 % 256) :: (key ++ (goList value ++ rest))).length < 12 := by
    simp
  rw [dif_neg hlen]
  simp only [List.getD_cons_zero, List.getD_cons_succ, List.drop_succ_cons, List.drop_zero,
    List.take_succ_cons]
  have hk' : key.length ≤ 128 := hk
  have hv' : goLen value ≤ 4096 := hv
  rw [readU32_u32le hs, readU32_u32le (by omega), readU32_u32le (by omega)]
  rw [if_neg (show ¬ (key.length > maxKeySize ∨ goLen value > maxValueSize) by
        simp only [maxKeySize, maxValueSize]; omega)]
  rw [if_neg (show ¬ key.length + goLen value > maxRecordSize - headerSize by
        simp only [maxRecordSize, headerSize, maxKeySize, maxValueSize]; omega)]
  have hblen : ¬ (key ++ (goList value ++ rest)).length < key.length + goLen value := by
    simp only [List.length_append, hvl]
    omega
  rw [if_neg hblen]
  have hdata : (key ++ (goList value ++ rest)).take (key.length + goLen value)
      = key ++ goList value := by
    rw [take_len_add_append, ← hvl, take_len_append]
  have hdrop : (key ++ (goList value ++ rest)).drop (key.length + goLen value)
      = rest := by
    rw [drop_len_add_append, ← hvl, drop_len_append]
  rw [hdata, drop_12_cons, hdrop]
  have hpay : ([key.length % 256, key.length / 256 % 256, key.length / 65536 % 256,
      key.length / 16777216 % 256, goLen value % 256, goLen value / 256 % 256,
      goLen value / 65536 % 256, goLen value / 16777216 % 256] : List Nat) ++
      (key ++ goList value) = walPayload key value := by
    simp [walPayload, u32le]
  rw [hpay]
  by_cases hsum : s = crc32 (walPayload key value)
  · rw [if_neg (by simp [hsum]), if_pos hsum]
    have hkey : (key ++ goList value).take key.length = key := take_len_append _ _
    have hval : (key ++ goList value).drop key.length = goList value := drop_len_append _ _
    rw [hkey, hval]
    unfold walRecovered
    by_cases hz : goLen value = 0
    · simp [hz]
    · simp [hz]
  · rw [if_pos (by simpa using hsum), if_neg hsum]

theorem walLoad_nil_tail {tail : List Nat} (h : tail.length < 12) :
    walLoad tail = ([], 0) := by
  rw [walLoad, dif_pos h]

theorem walLoad_records_append (rs : List (List Nat × GoSlice)) (X : List Nat)
    (h : ∀ r ∈ rs, WalValidRecord r) :
    walLoad (walRecords rs ++ X) =
      ((rs.map fun r => walRecovered r.1 r.2) ++ (walLoad X).1, (walLoad X).2) := by
  induction rs with
  | nil => simp [walRecords]
  | cons r rs ih =>
    have hr := h r (by simp)
    have hrest : ∀ x ∈ rs, WalValidRecord x := fun x hx => h x (by simp [hx])
    have : walRecords (r :: rs) ++ X = walRecord r.1 r.2 ++ (walRecords rs ++ X) := by
      simp [walRecords]
    rw [this]
    unfold walRecord
    rw [walLoad_record _ _ _ _ (crc32_lt _) hr.1 hr.2, if_pos rfl, ih hrest]
    simp

/-- Claim C6: WalWriter.Load recovers the valid records of a WAL stream in
order, one `apply` call per valid record; a framing-intact record whose stored
checksum differs from the recomputed CRC32 adds one to Skipped and scanning
continues at the next record; a trailing short header (fewer than 12 bytes
remaining) stops recovery with the valid prefix recovered and nothing
skipped; a trailing short body (valid header sizes, truncated data) stops
recovery with the valid prefix recovered and one record skipped. -/
theorem walLoad_recovery :
    (∀ (rs : List (List Nat × GoSlice)) (tail : List Nat),
      (∀ r ∈ rs, WalValidRecord r) → tail.length < 12 →
      walLoad (walRecords rs ++ tail) = (rs.map fun r => walRecovered r.1 r.2, 0))
  ∧ (∀ (rs : List (List Nat × GoSlice)) (s : Nat) (k : List Nat) (v : GoSlice)
      (rest : List Nat),
      (∀ r ∈ rs, WalValidRecord r) → k.length ≤ maxKeySize → goLen v ≤ maxValueSize →
      s < 2 ^ 32 → s ≠ crc32 (walPayload k v) →
      walLoad (walRecords rs ++ (walRecordWithSum s k v ++ rest)) =
        ((rs.map fun r => walRecovered r.1 r.2) ++ (walLoad rest).1, (walLoad rest).2 + 1))
  ∧ (∀ (rs : List (List Nat × GoSlice)) (s ks vs : Nat) (body : List Nat),
      (∀ r ∈ rs, WalValidRecord r) → ks ≤ maxKeySize → vs ≤ maxValueSize →
      s < 2 ^ 32 → body.length < ks + vs →
      walLoad (walRecords rs ++ (u32le s ++ u32le ks ++ u32le vs ++ body)) =
        (rs.map fun r => walRecovered r.1 r.2, 1)) := by
  refine ⟨?_, ?_, ?_⟩
  · intro rs tail h htail
    rw [walLoad_records_append rs tail h, walLoad_nil_tail htail]
    simp
  · intro rs s k v rest h hk hv hs hsum
    rw [walLoad_records_append rs _ h,
      walLoad_record s k v rest hs hk hv, if_neg hsum]
  · intro rs s ks vs body h hks hvs hs hshort
    rw [walLoad_records_append rs _ h]
    have hform : u32le s ++ u32le ks ++ u32le vs ++ body =
        s % 256 :: (s / 256 % 256) :: (s / 65536 % 256) :: (s / 16777216 % 256) ::
        (ks % 256) :: (ks / 256 % 256) :: (ks / 65536 % 256) :: (ks / 16777216 % 256) ::
        (vs % 256) :: (vs / 256 % 256) :: (vs / 65536 % 256) :: (vs / 16777216 % 256) ::
        body := by
      simp [u32le]
    have hks' : ks ≤ 128 := hks
    have hvs' : vs ≤ 4096 := hvs
    rw [hform, walLoad]
    rw [dif_neg (by simp)]
    simp only [List.getD_cons_zero, List.getD_cons_succ, List.drop_succ_cons, List.drop_zero]
    rw [readU32_u32le hs, readU32_u32le (by omega), readU32_u32le (by omega)]
    rw [if_neg (show ¬ (ks > maxKeySize ∨ vs > maxValueSize) by
          simp only [maxKeySize, maxValueSize]; omega)]
    rw [if_neg (show ¬ ks + vs > maxRecordSize - headerSize by
          simp only [maxRecordSize, headerSize, maxKeySize, maxValueSize]; omega)]
    rw [if_pos hshort]
    simp

set_option maxRecDepth 4000 in
/-- Witness for C6 at concrete inputs: one valid record recovered with a clean
EOF; one record with a zeroed checksum skipped with recovery continuing; one
truncated body skipped with recovery stopping. -/
theorem walLoad_recovery_witness :
    walLoad (walRecords [([1], some [2])] ++ []) = ([([1], some [2])], 0) ∧
    walLoad (walRecords [] ++ (walRecordWithSum 0 [1] none ++ [])) = ([], 1) ∧
    walLoad (walRecords [] ++ (u32le 0 ++ u32le 1 ++ u32le 0 ++ [])) = ([], 1) := by
  have h0 : walLoad ([] : List Nat) = ([], 0) := walLoad_nil_tail (by decide)
  refine ⟨?_, ?_, ?_⟩
  · have h := walLoad_recovery.1 [([1], some [2])] [] (by decide) (by decide)
    simpa [walRecovered, goLen, goList] using h
  · have h := walLoad_recovery.2.1 [] 0 [1] none [] (by decide) (by decide) (by decide)
      (by norm_num) (by decide)
    simpa [h0] using h
  · have h := walLoad_recovery.2.2 [] 0 1 0 [] (by decide) (by decide) (by decide)
      (by norm_num) (by decide)
    simpa using h

theorem sstRecordsAux_nil (fuel : Nat) : sstRecordsAux fuel [] = [] := by
  cases fuel <;> simp [sstRecordsAux]

/-- Parse of a data section starting with one complete record whose sizes are
within the SST bounds: the record is yielded and parsing continues. -/
theorem sstRecordsAux_record (fuel : Nat) (key value rest : List Nat)
    (hk : key.length ≤ maxSSTableKeySize) (hv : value.length ≤ maxSSTableValueSize) :
    sstRecordsAux (fuel + 1)
        (u32le key.length ++ (u32le value.length ++ (key ++ (value ++ rest)))) =
      (key, value) :: sstRecordsAux fuel rest := by
  have hk' : key.length ≤ 1 <<< 20 := hk
  have hv' : value.length ≤ 4 <<< 20 := hv
  have hform : u32le key.length ++ (u32le value.length ++ (key ++ (value ++ rest))) =
      (key.length % 256) :: (key.length / 256 % 256) :: (key.length / 65536 % 256) ::
      (key.length / 16777216 % 256) ::
      (value.length % 256) :: (value.length / 256 % 256) :: (value.length / 65536 % 256) ::
      (value.length / 16777216 % 256) :: (key ++ (value ++ rest)) := by
    simp [u32le]
  rw [hform]
  rw [sstRecordsAux]
  rw [if_neg (by simp)]
  simp only [List.getD_cons_zero, List.getD_cons_succ, List.drop_succ_cons, List.drop_zero]
  rw [readU32_u32le (by simp only [Nat.shiftLeft_eq] at hk'; omega),
    readU32_u32le (by simp only [Nat.shiftLeft_eq] at hv'; omega)]
  rw [if_neg (show ¬ key.length > maxSSTableKeySize by omega)]
  rw [if_neg (show ¬ value.length > maxSSTableValueSize by omega)]
  rw [if_neg (show ¬ ((key.length % 256) :: (key.length / 256 % 256) ::
        (key.length / 65536 % 256) :: (key.length / 16777216 % 256) ::
        (value.length % 256) :: (value.length / 256 % 256) :: (value.length / 65536 % 256) ::
        (value.length / 16777216 % 256) :: (key ++ (value ++ rest))).length
        < 8 + (key.length + value.length) by
        simp only [List.length_cons, List.length_append]; omega)]
  have hbuf : (key ++ (value ++ rest)).take (key.length + value.length)
      = key ++ value := by
    rw [take_len_add_append, take_len_append]
  have hdrop : (key ++ (value ++ rest)).drop (key.length + value.length) = rest := by
    rw [drop_len_add_append, drop_len_append]
  have hdrop8 : ∀ (n a b c d e f g h : Nat) (t : List Nat),
      List.drop (8 + n) (a :: b :: c :: d :: e :: f :: g :: h :: t) = List.drop n t := by
    intro n a b c d e f g h t
    have hc : a :: b :: c :: d :: e :: f :: g :: h :: t = [a, b, c, d, e, f, g, h] ++ t := rfl
    have h8 : 8 + n = ([a, b, c, d, e, f, g, h] : List Nat).length + n := by simp
    rw [hc, h8, drop_len_add_append]
  rw [hdrop8, hbuf, hdrop, take_len_append, drop_len_append]

theorem u32le_length (n : Nat) : (u32le n).length = 4 := rfl

/-- writeRecordToBlock on an empty block: the first key is remembered and the
record is appended to the block buffer. -/
theorem wrtb_empty (w : SSTWriter) (key : List Nat) (value : GoSlice)
    (hcb : w.currentBlock = []) (hfk : w.firstKeyInBlock = none) :
    writeRecordToBlock w key value =
      ({ w with firstKeyInBlock := some key,
                currentBlock := u32le key.length ++ u32le (goLen value) ++ key ++ goList value },
       false) := by
  unfold writeRecordToBlock
  rw [if_pos hfk]
  have hc : ({ w with firstKeyInBlock := some key } : SSTWriter).currentBlock = [] := hcb
  rw [if_neg (by rw [hc]; simp)]
  rw [hc]
  simp

/-- writeRecordToBlock when the record would push a non-empty block past
BlockSize: the block is flushed and the function returns — the record itself
is appended nowhere. -/
theorem wrtb_overflow (w : SSTWriter) (key : List Nat) (value : GoSlice)
    (hfk : w.firstKeyInBlock ≠ none)
    (hover : w.currentBlock.length + (8 + key.length + goLen value) > BlockSize)
    (hne : w.currentBlock.length > 0) :
    writeRecordToBlock w key value = (flushCurrentBlock w, true) := by
  unfold writeRecordToBlock
  rw [if_neg hfk, if_pos ⟨hover, hne⟩]

/-- Claim C2 fails on the code: feed a fresh writer two records where the
second would push the block past 4 KiB.  The block holding the first record is
flushed, but the overflowing record is dropped on the floor — Go's
writeRecordToBlock returns `true` after flushing without writing the record,
and WriteFromIterator ignores that boolean and advances the iterator — so the
resulting data section contains only the first record, not "every record
exactly once" with the second starting a fresh block. -/
theorem writeFromIterator_drops_overflow_record (k1 v1 k2 v2 : List Nat)
    (hk1 : k1.length ≤ maxSSTableKeySize) (hv1 : v1.length ≤ maxSSTableValueSize)
    (hover : 8 + k1.length + v1.length + (8 + k2.length + v2.length) > BlockSize) :
    sstRecords (writerClose (writeFromIterator newSSTWriter
      [(k1, some v1), (k2, some v2)])).fileData = [(k1, v1)] := by
  unfold writeFromIterator
  simp only [List.foldl, newSSTWriter]
  have e1 := wrtb_empty
    { fileData := [], fileSize := 0, blockIndex := [], bloomKeys := [] ++ [k1],
      currentBlock := [], blockOffset := 0, firstKeyInBlock := none }
    k1 (some v1) rfl rfl
  rw [e1]
  simp only [goLen, goList]
  have e2 := wrtb_overflow
    { fileData := [], fileSize := 0, blockIndex := [], bloomKeys := [] ++ [k1] ++ [k2],
      currentBlock := u32le k1.length ++ u32le v1.length ++ k1 ++ v1, blockOffset := 0,
      firstKeyInBlock := some k1 }
    k2 (some v2) (by simp)
    (by simp only [BlockSize] at hover ⊢; simp [u32le, goLen]; omega)
    (by simp [u32le])
  rw [e2]
  unfold flushCurrentBlock writerClose
  simp only [List.length_append, u32le_length, List.nil_append, List.length_nil]
  rw [if_neg (by omega)]
  unfold flushCurrentBlock
  simp only [List.length_nil, if_pos]
  have hshape : u32le k1.length ++ u32le v1.length ++ k1 ++ v1
      = u32le k1.length ++ (u32le v1.length ++ (k1 ++ (v1 ++ []))) := by simp
  rw [hshape]
  unfold sstRecords
  have hL : (u32le k1.length ++ (u32le v1.length ++ (k1 ++ (v1 ++ [])))).length
      = 7 + k1.length + v1.length + 1 := by
    simp only [List.length_append, u32le_length, List.length_nil]
    omega
  rw [hL]
  rw [sstRecordsAux_record (7 + k1.length + v1.length) k1 v1 [] hk1 hv1]
  rw [sstRecordsAux_nil]

/-- Witness for C2 at the concrete `c2Entries` input (two records of 3009
encoded bytes each; the block target is 4096): only the first record survives
in the data section. -/
theorem writeFromIterator_drops_overflow_record_witness :
    sstRecords (writerClose (writeFromIterator newSSTWriter c2Entries)).fileData
      = [([1], List.replicate 3000 7)] := by
  have h := writeFromIterator_drops_overflow_record [1] (List.replicate 3000 7)
    [2] (List.replicate 3000 9)
    (by decide)
    (by simp only [List.length_replicate]; decide)
    (by simp only [List.length_replicate, List.length_cons, List.length_nil]; decide)
  simpa only [c2Entries] using h

/-- Claim C1 fails on the code: in `c1State` — reached by `Put "k" "v"`,
flush to an SST, then `Delete "k"` — the active memtable holds the tombstone
for [107], yet Get returns the old SST value ([118], present) instead of
NotFound, because SkipList.Get reports the tombstone as `found = false` and
the lookup falls through to the SST. -/
theorem dbGet_after_delete_counterexample :
    dbGet c1State [107] = (some [118], true) ∧
    (some [118], true) ≠ ((none, false) : GoSlice × Bool) := by
  constructor
  · decide
  · decide

/-- Claim C3 fails on the code: compacting a table whose data section holds
the single tombstone record for key [120] yields one output whose data
section still contains that tombstone record (key [120], empty value,
vlen = 0).  The `value != nil` skip never fires because the SST iterator
materialises tombstone values as empty non-nil slices. -/
theorem compaction_keeps_tombstone_counterexample :
    (compactFromTables [c3Table]).map sstRecords = [[([120], [])]] ∧
    c3Table.data = [1, 0, 0, 0, 0, 0, 0, 0, 120] := by
  constructor
  · decide
  · rfl

/-- Claim C4 fails on the code: with the in-memory vector newest-first
`[f, a, b, c, d]` and a compaction replacing the 4-table tail by `[m]`,
rewriteManifest writes the manifest as `[f, m]` (newest first); the
oldest-first order the claim requires is `[m, f]`, and Open would therefore
populate its vector as `[m, f]`, consulting the oldest table first. -/
theorem manifest_after_compaction_counterexample :
    manifestAfterCompaction ["f.sst", "a.sst", "b.sst", "c.sst", "d.sst"] 4 ["m.sst"]
      = ["f.sst", "m.sst"] ∧
    openSSTOrder ["f.sst", "m.sst"] = ["m.sst", "f.sst"] ∧
    (["f.sst", "m.sst"] : List String) ≠ ["m.sst", "f.sst"] := by
  refine ⟨rfl, rfl, by decide⟩

/-- Claim C5 fails on the code: when the active memtable's Close returns an
error, DB.Close accumulates it in firstErr but then executes `return nil`, so
the caller sees success. -/
theorem dbClose_counterexample :
    dbClose true false (some "boom") none [] = none ∧
    dbCloseFirstErr true false (some "boom") none [] = some "boom" := by
  refine ⟨rfl, rfl⟩

/-- Claim C7: on an open, unfrozen memtable with no latched WAL error, Put
with key length exactly 128 and value length exactly 4096 succeeds and
appends the record to the WAL; Put with key length 129, or with value length
4097 under any key, fails with the invalid-size error and returns the
memtable (skiplist, WAL stream, size counter) unchanged. -/
theorem mtPut_size_bounds (mt : Memtable) (key128 : List Nat) (val4096 : GoSlice)
    (key129 : List Nat) (val4097 : GoSlice) (key : List Nat) (value : GoSlice)
    (hfrozen : mt.frozen = false) (hclosed : mt.wal.closed = false)
    (hasync : mt.wal.asyncErr = false)
    (h128 : key128.length = 128) (h4096 : goLen val4096 = 4096)
    (h129 : key129.length = 129) (h4097 : goLen val4097 = 4097) :
    (mtPut mt key128 val4096).2 = none ∧
    (mtPut mt key128 val4096).1.wal.data = mt.wal.data ++ walRecord key128 val4096 ∧
    mtPut mt key129 value = (mt, some (.wal .invalidSize)) ∧
    mtPut mt key val4097 = (mt, some (.wal .invalidSize)) := by
  have hw : walWrite mt.wal key128 val4096 =
      ({ mt.wal with data := mt.wal.data ++ walRecord key128 val4096 }, none) := by
    unfold walWrite
    rw [if_neg (by rw [h128]; unfold maxKeySize; omega)]
    rw [if_neg (by rw [h4096]; unfold maxValueSize; omega)]
    rw [if_neg (by rw [h128, h4096]; unfold maxRecordSize headerSize maxKeySize maxValueSize; omega)]
    simp [hclosed, hasync]
  refine ⟨?_, ?_, ?_, ?_⟩
  · unfold mtPut
    rw [hfrozen]
    simp only [Bool.false_eq_true, if_false, hw]
  · unfold mtPut
    rw [hfrozen]
    simp only [Bool.false_eq_true, if_false, hw]
  · unfold mtPut
    rw [hfrozen]
    simp only [Bool.false_eq_true, if_false]
    unfold walWrite
    rw [if_pos (by rw [h129]; unfold maxKeySize; omega)]
  · unfold mtPut
    rw [hfrozen]
    simp only [Bool.false_eq_true, if_false]
    unfold walWrite
    by_cases hkey : key.length > maxKeySize
    · rw [if_pos hkey]
    · rw [if_neg hkey]
      rw [if_pos (by rw [h4097]; unfold maxValueSize; omega)]

/-- Witness for C7 at concrete inputs: a key of 128 bytes with a value of
4096 bytes is accepted; a key of 129 bytes or a value of 4097 bytes is
rejected with the invalid-size error, leaving the memtable unchanged. -/
theorem mtPut_size_bounds_witness :
    (mtPut freshMemtable (List.replicate 128 97) (some (List.replicate 4096 98))).2 = none ∧
    (mtPut freshMemtable (List.replicate 128 97) (some (List.replicate 4096 98))).1.wal.data
      = freshMemtable.wal.data ++
        walRecord (List.replicate 128 97) (some (List.replicate 4096 98)) ∧
    mtPut freshMemtable (List.replicate 129 97) (some [2])
      = (freshMemtable, some (.wal .invalidSize)) ∧
    mtPut freshMemtable [1] (some (List.replicate 4097 98))
      = (freshMemtable, some (.wal .invalidSize)) :=
  mtPut_size_bounds freshMemtable _ _ _ _ _ _ rfl rfl rfl
    (by simp only [List.length_replicate]) (by simp only [goLen, List.length_replicate])
    (by simp only [List.length_replicate]) (by simp only [goLen, List.length_replicate])

theorem intToUInt64_lt (i : Int) : intToUInt64 i < 2 ^ 64 := by
  unfold intToUInt64
  omega

theorem uint64ToInt_intToUInt64 (i : Int) (hlo : -(2 ^ 63) ≤ i) (hhi : i < 2 ^ 63) :
    uint64ToInt (intToUInt64 i) = i := by
  unfold uint64ToInt intToUInt64
  omega

theorem readU64_readback (n : Nat) (h : n < 2 ^ 64) :
    n % 256 % 256 + n / 2 ^ 8 % 256 % 256 * 2 ^ 8 + n / 2 ^ 16 % 256 % 256 * 2 ^ 16 +
    n / 2 ^ 24 % 256 % 256 * 2 ^ 24 + n / 2 ^ 32 % 256 % 256 * 2 ^ 32 +
    n / 2 ^ 40 % 256 % 256 * 2 ^ 40 + n / 2 ^ 48 % 256 % 256 * 2 ^ 48 +
    n / 2 ^ 56 % 256 % 256 * 2 ^ 56 = n := by
  omega

theorem readU64At_footerSerialize (f : Footer) :
    readU64At (footerSerialize f) 0 = intToUInt64 f.bloomFilterOffset ∧
    readU64At (footerSerialize f) 8 = intToUInt64 f.blockIndexOffset ∧
    readU64At (footerSerialize f) 16 = intToUInt64 f.blockIndexSize ∧
    readU64At (footerSerialize f) 24 = intToUInt64 f.magicNumber := by
  refine ⟨?_, ?_, ?_, ?_⟩ <;>
    exact readU64_readback _ (intToUInt64_lt _)

/-- Claim C8: deserializing the 32-byte serialization of any footer whose
magic field equals MagicNumber (and whose int64 fields are in range) yields
the original footer; deserializing any 32-byte buffer whose magic field
(bytes 24..32, read as int64) differs from MagicNumber fails. -/
theorem footer_roundtrip :
    (∀ f : Footer, f.magicNumber = (MagicNumber : Int) →
      -(2 ^ 63) ≤ f.bloomFilterOffset → f.bloomFilterOffset < 2 ^ 63 →
      -(2 ^ 63) ≤ f.blockIndexOffset → f.blockIndexOffset < 2 ^ 63 →
      -(2 ^ 63) ≤ f.blockIndexSize → f.blockIndexSize < 2 ^ 63 →
      deserializeFooter (footerSerialize f) = .ok f)
  ∧ (∀ data : List Nat, data.length = 32 →
      uint64ToInt (readU64At data 24) ≠ (MagicNumber : Int) →
      deserializeFooter data = .error ()) := by
  constructor
  · intro f hmagic h1 h2 h3 h4 h5 h6
    unfold deserializeFooter
    rw [if_neg (by simp [footerSerialize, u64le])]
    obtain ⟨r0, r8, r16, r24⟩ := readU64At_footerSerialize f
    rw [r0, r8, r16, r24]
    rw [uint64ToInt_intToUInt64 _ h1 h2, uint64ToInt_intToUInt64 _ h3 h4,
      uint64ToInt_intToUInt64 _ h5 h6,
      uint64ToInt_intToUInt64 _ (by rw [hmagic]; decide) (by rw [hmagic]; decide)]
    rw [hmagic]
    rw [if_neg (by simp)]
    rw [← hmagic]
  · intro data hlen hne
    unfold deserializeFooter
    rw [if_neg (by omega)]
    rw [if_pos hne]

/-- Witness for C8 at concrete inputs: a footer with offsets 100/50/30 and
the correct magic survives the round trip; an all-zero 32-byte buffer (magic
field 0) is rejected. -/
theorem footer_roundtrip_witness :
    deserializeFooter (footerSerialize
      { bloomFilterOffset := 100, blockIndexOffset := 50, blockIndexSize := 30,
        magicNumber := (MagicNumber : Int) }) =
      .ok { bloomFilterOffset := 100, blockIndexOffset := 50, blockIndexSize := 30,
            magicNumber := (MagicNumber : Int) } ∧
    deserializeFooter (List.replicate 32 0) = .error () :=
  ⟨footer_roundtrip.1 _ rfl (by decide) (by decide) (by decide) (by decide)
      (by decide) (by decide),
   footer_roundtrip.2 (List.replicate 32 0) (by simp) (by decide)⟩

theorem bloomBitSet_self (bits : List Nat) (idx : Nat) (h : idx / 8 < bits.length) :
    ¬ ((setBloomBit bits idx).getD (idx / 8) 0 &&& 1 <<< (idx % 8) = 0) := by
  unfold setBloomBit
  rw [List.getD_eq_getElem _ _ (by simpa using h), List.getElem_set_self]
  simp only [Nat.shiftLeft_eq, one_mul, Nat.and_two_pow]
  simp [Nat.testBit_or]

theorem bloomBitSet_mono (bits : List Nat) (idx j : Nat)
    (h : ¬ (bits.getD (j / 8) 0 &&& 1 <<< (j % 8) = 0)) :
    ¬ ((setBloomBit bits idx).getD (j / 8) 0 &&& 1 <<< (j % 8) = 0) := by
  rcases Nat.lt_or_ge (j / 8) bits.length with hin | hout
  · unfold setBloomBit
    have hgd : bits.getD (j / 8) 0 = bits[j / 8] :=
      List.getD_eq_getElem _ _ (by simpa using hin)
    by_cases hb : idx / 8 = j / 8
    · rw [hb]
      rw [List.getD_eq_getElem _ _ (by simpa using hin), List.getElem_set_self]
      rw [hgd] at h ⊢
      simp only [Nat.shiftLeft_eq, one_mul, Nat.and_two_pow] at h ⊢
      simp only [Nat.testBit_or]
      rcases htb : (bits[j / 8]).testBit (j % 8) with hf | ht
      · rw [htb] at h; simp at h
      · simp
    · have hget : (bits.set (idx / 8) (bits.getD (idx / 8) 0 ||| 1 <<< (idx % 8))).getD (j / 8) 0
          = bits.getD (j / 8) 0 := by
        rw [List.getD_eq_getD_get?, List.getD_eq_getD_get?,
          List.get?_eq_getElem?, List.get?_eq_getElem?, List.getElem?_set_ne hb]
        rw [List.getD_eq_getD_get?, List.get?_eq_getElem?]
      rw [hget]
      exact h
  · have hz : bits.getD (j / 8) 0 = 0 := List.getD_eq_default _ _ hout
    rw [hz] at h
    simp [Nat.zero_and] at h

theorem fold_set_length (xs : List Nat) (bs : List Nat) (i : Nat) :
    (xs.foldl (fun b _ => setBloomBit b i) bs).length = bs.length := by
  induction xs generalizing bs with
  | nil => rfl
  | cons x t ih =>
    simp only [List.foldl_cons]
    rw [ih]
    simp [setBloomBit]

theorem fold_set_preserve (xs : List Nat) (bs : List Nat) (i j : Nat)
    (h : ¬ (bs.getD (j / 8) 0 &&& 1 <<< (j % 8) = 0)) :
    ¬ ((xs.foldl (fun b _ => setBloomBit b i) bs).getD (j / 8) 0 &&& 1 <<< (j % 8) = 0) := by
  induction xs generalizing bs with
  | nil => exact h
  | cons x t ih =>
    simp only [List.foldl_cons]
    exact ih _ (bloomBitSet_mono bs i j h)

theorem fold_set_tests (xs : List Nat) (bs : List Nat) (i : Nat)
    (hne : xs ≠ []) (hin : i / 8 < bs.length) :
    ¬ ((xs.foldl (fun b _ => setBloomBit b i) bs).getD (i / 8) 0 &&& 1 <<< (i % 8) = 0) := by
  cases xs with
  | nil => exact absurd rfl hne
  | cons x t =>
    simp only [List.foldl_cons]
    exact fold_set_preserve t _ i i (bloomBitSet_self bs i hin)

theorem bloomAdd_bits_length (bf : BloomFilter) (key : List Nat) :
    (bloomAdd bf key).bits.length = bf.bits.length := by
  unfold bloomAdd
  exact fold_set_length _ _ _

theorem bloomAdd_bitCount (bf : BloomFilter) (key : List Nat) :
    (bloomAdd bf key).bitCount = bf.bitCount := rfl

theorem bloomAdd_hashCount (bf : BloomFilter) (key : List Nat) :
    (bloomAdd bf key).hashCount = bf.hashCount := rfl

theorem bloomAddAll_bits_length (bf : BloomFilter) (keys : List (List Nat)) :
    (bloomAddAll bf keys).bits.length = bf.bits.length := by
  unfold bloomAddAll
  induction keys generalizing bf with
  | nil => rfl
  | cons x t ih =>
    simp only [List.foldl_cons]
    rw [ih, bloomAdd_bits_length]

theorem bloomAddAll_bitCount (bf : BloomFilter) (keys : List (List Nat)) :
    (bloomAddAll bf keys).bitCount = bf.bitCount := by
  unfold bloomAddAll
  induction keys generalizing bf with
  | nil => rfl
  | cons x t ih =>
    simp only [List.foldl_cons]
    rw [ih]
    rfl

theorem bloomAddAll_hashCount (bf : BloomFilter) (keys : List (List Nat)) :
    (bloomAddAll bf keys).hashCount = bf.hashCount := by
  unfold bloomAddAll
  induction keys generalizing bf with
  | nil => rfl
  | cons x t ih =>
    simp only [List.foldl_cons]
    rw [ih]
    rfl

theorem bloomAdd_tests (bf : BloomFilter) (key : List Nat)
    (hlen : bf.bits.length = (bf.bitCount + 7) / 8) (hpos : 0 < bf.bitCount)
    (hc : 0 < bf.hashCount) :
    ¬ ((bloomAdd bf key).bits.getD ((fnv32a key % bf.bitCount) / 8) 0 &&&
        1 <<< ((fnv32a key % bf.bitCount) % 8) = 0) := by
  unfold bloomAdd
  apply fold_set_tests
  · simp [List.range_eq_nil]
    omega
  · have hidx : fnv32a key % bf.bitCount < bf.bitCount := Nat.mod_lt _ hpos
    rw [hlen]
    omega

theorem bloomAdd_preserve (bf : BloomFilter) (key : List Nat) (j : Nat)
    (h : ¬ (bf.bits.getD (j / 8) 0 &&& 1 <<< (j % 8) = 0)) :
    ¬ ((bloomAdd bf key).bits.getD (j / 8) 0 &&& 1 <<< (j % 8) = 0) := by
  unfold bloomAdd
  exact fold_set_preserve _ _ _ _ h

theorem bloomAddAll_preserve (bf : BloomFilter) (keys : List (List Nat)) (j : Nat)
    (h : ¬ (bf.bits.getD (j / 8) 0 &&& 1 <<< (j % 8) = 0)) :
    ¬ ((bloomAddAll bf keys).bits.getD (j / 8) 0 &&& 1 <<< (j % 8) = 0) := by
  unfold bloomAddAll
  induction keys generalizing bf with
  | nil => exact h
  | cons x t ih =>
    simp only [List.foldl_cons]
    exact ih _ (bloomAdd_preserve bf x j h)

theorem bloomAddAll_tests (bf : BloomFilter) (keys : List (List Nat)) (k : List Nat)
    (hlen : bf.bits.length = (bf.bitCount + 7) / 8) (hpos : 0 < bf.bitCount)
    (hc : 0 < bf.hashCount) (hk : k ∈ keys) :
    ¬ ((bloomAddAll bf keys).bits.getD ((fnv32a k % bf.bitCount) / 8) 0 &&&
        1 <<< ((fnv32a k % bf.bitCount) % 8) = 0) := by
  induction keys generalizing bf with
  | nil => cases hk
  | cons x t ih =>
    have hstep : bloomAddAll bf (x :: t) = bloomAddAll (bloomAdd bf x) t := rfl
    rw [hstep]
    rcases List.mem_cons.mp hk with rfl | hkt
    · exact bloomAddAll_preserve _ t _ (bloomAdd_tests bf k hlen hpos hc)
    · have hlen' : (bloomAdd bf x).bits.length = ((bloomAdd bf x).bitCount + 7) / 8 := by
        rw [bloomAdd_bits_length, bloomAdd_bitCount]
        exact hlen
      have := ih (bloomAdd bf x) hlen' hpos hc hkt
      simpa [bloomAdd_bitCount] using this

theorem mayContain_of_test (bf : BloomFilter) (k : List Nat)
    (h : ¬ (bf.bits.getD ((fnv32a k % bf.bitCount) / 8) 0 &&&
        1 <<< ((fnv32a k % bf.bitCount) % 8) = 0)) :
    bloomMayContain bf k = true := by
  unfold bloomMayContain
  rw [List.all_eq_true]
  intro x hx
  simpa using h

theorem mayContain_hashCount_zero (bf : BloomFilter) (k : List Nat)
    (h : bf.hashCount = 0) : bloomMayContain bf k = true := by
  unfold bloomMayContain
  rw [h]
  rfl

theorem bloomBytes_roundtrip (bf : BloomFilter)
    (hlen : bf.bits.length = (bf.bitCount + 7) / 8)
    (hbc : bf.bitCount < 2 ^ 32) (hhc : bf.hashCount < 2 ^ 32) :
    loadBloomFilter (bloomBytes bf) = .ok bf := by
  unfold loadBloomFilter bloomBytes
  have hform : u32le bf.bitCount ++ u32le bf.hashCount ++ bf.bits =
      (bf.bitCount % 256) :: (bf.bitCount / 256 % 256) :: (bf.bitCount / 65536 % 256) ::
      (bf.bitCount / 16777216 % 256) ::
      (bf.hashCount % 256) :: (bf.hashCount / 256 % 256) :: (bf.hashCount / 65536 % 256) ::
      (bf.hashCount / 16777216 % 256) :: bf.bits := by
    simp [u32le]
  rw [hform]
  rw [if_neg (by simp)]
  simp only [List.getD_cons_zero, List.getD_cons_succ, List.drop_succ_cons, List.drop_zero]
  rw [readU32_u32le hbc, readU32_u32le hhc]
  rw [if_neg (by simp only [List.length_cons]; omega)]
  rw [← hlen, List.take_length]

/-- Claim C9: for every well-formed bloom filter state and every key in the
set of added keys, MayContain answers true, and the filter obtained by
serializing with Bytes and reloading with LoadBloomFilter is the same filter
and also answers true — no false negatives, also across the round trip. -/
theorem bloom_no_false_negatives (bf : BloomFilter) (keys : List (List Nat)) (k : List Nat)
    (hlen : bf.bits.length = (bf.bitCount + 7) / 8) (hpos : 0 < bf.bitCount)
    (hbc : bf.bitCount < 2 ^ 32) (hhc : bf.hashCount < 2 ^ 32) (hk : k ∈ keys) :
    bloomMayContain (bloomAddAll bf keys) k = true ∧
    loadBloomFilter (bloomBytes (bloomAddAll bf keys)) = .ok (bloomAddAll bf keys) ∧
    (loadBloomFilter (bloomBytes (bloomAddAll bf keys))).map
      (fun bf2 => bloomMayContain bf2 k) = .ok true := by
  have hmc : bloomMayContain (bloomAddAll bf keys) k = true := by
    rcases Nat.eq_zero_or_pos bf.hashCount with hz | hc
    · exact mayContain_hashCount_zero _ _ (by rw [bloomAddAll_hashCount]; exact hz)
    · apply mayContain_of_test
      have := bloomAddAll_tests bf keys k hlen hpos hc hk
      simpa [bloomAddAll_bitCount] using this
  have hrt : loadBloomFilter (bloomBytes (bloomAddAll bf keys)) = .ok (bloomAddAll bf keys) := by
    apply bloomBytes_roundtrip
    · rw [bloomAddAll_bits_length, bloomAddAll_bitCount]
      exact hlen
    · rw [bloomAddAll_bitCount]; exact hbc
    · rw [bloomAddAll_hashCount]; exact hhc
  refine ⟨hmc, hrt, ?_⟩
  rw [hrt]
  simp [Except.map, hmc]

/-- Witness for C9 at a concrete filter (16 bits, 2 hash probes) and key. -/
theorem bloom_no_false_negatives_witness :
    bloomMayContain (bloomAddAll ⟨[0, 0], 16, 2⟩ [[97]]) [97] = true ∧
    loadBloomFilter (bloomBytes (bloomAddAll ⟨[0, 0], 16, 2⟩ [[97]]))
      = .ok (bloomAddAll ⟨[0, 0], 16, 2⟩ [[97]]) ∧
    (loadBloomFilter (bloomBytes (bloomAddAll ⟨[0, 0], 16, 2⟩ [[97]]))).map
      (fun bf2 => bloomMayContain bf2 [97]) = .ok true :=
  bloom_no_false_negatives ⟨[0, 0], 16, 2⟩ [[97]] [97]
    (by decide) (by decide) (by decide) (by decide) (by decide)

theorem bytesCompare_self (a : List Nat) : bytesCompare a a = .eq := by
  induction a with
  | nil => rfl
  | cons x t ih => simp [bytesCompare, ih]

/-- Claim C10: Put of an empty (zero-length, non-nil) value on a fresh
memtable succeeds; while that memtable is live, Get reports the key present
with the empty value; the WAL encodes the record with vlen = 0; replay at the
next Open applies it as a nil value (a tombstone), after which Get reports
the key as not present. -/
theorem emptyValue_put_becomes_tombstone_after_recovery (k : List Nat)
    (hk : k.length ≤ maxKeySize) :
    (mtPut freshMemtable k (some [])).2 = none ∧
    mtGet (mtPut freshMemtable k (some [])).1 k = (some [], true) ∧
    (mtPut freshMemtable k (some [])).1.wal.data = walRecord k (some []) ∧
    (walLoad (mtPut freshMemtable k (some [])).1.wal.data).1 = [(k, none)] ∧
    mtGet (mtRecover (mtPut freshMemtable k (some [])).1.wal.data) k = (none, false) := by
  have hput : mtPut freshMemtable k (some []) =
      ({ entries := [(k, some [])],
         wal := { closed := false, asyncErr := false, data := [] ++ walRecord k (some []) },
         size := 0 + ((k.length : Int) + ((0 : Nat) : Int)), frozen := false }, none) := by
    have hk' : k.length ≤ 128 := hk
    unfold mtPut freshMemtable
    simp only [Bool.false_eq_true, if_false]
    unfold walWrite
    rw [if_neg (by simp only [maxKeySize]; omega)]
    rw [if_neg (by simp [goLen, maxValueSize])]
    rw [if_neg (by
          simp only [goLen, maxRecordSize, headerSize, maxKeySize, maxValueSize]
          simp
          omega)]
    simp [slGet, slPut, copyBytes, goLen]
  rw [hput]
  have hload : (walLoad ([] ++ walRecord k (some []))).1 = [(k, none)] := by
    rw [List.nil_append]
    unfold walRecord
    have := walLoad_record (crc32 (walPayload k (some []))) k (some []) []
      (crc32_lt _) hk (by simp [goLen, maxValueSize])
    rw [show walRecordWithSum (crc32 (walPayload k (some []))) k (some []) ++ []
        = walRecordWithSum (crc32 (walPayload k (some []))) k (some []) by simp] at this
    rw [this, if_pos rfl, walLoad_nil_tail (by simp)]
    unfold walRecovered goLen goList
    simp
  refine ⟨rfl, ?_, rfl, hload, ?_⟩
  · unfold mtGet slGet
    simp [bytesCompare_self]
  · unfold mtRecover mtGet
    have hents : mtRecoverEntries ([] ++ walRecord k (some [])) = [(k, none)] := by
      unfold mtRecoverEntries
      rw [hload]
      simp [slPut, copyBytes]
    rw [hents]
    unfold slGet
    simp [bytesCompare_self]

/-- Witness for C10 at the concrete key [107] ("k"). -/
theorem emptyValue_put_becomes_tombstone_after_recovery_witness :
    (mtPut freshMemtable [107] (some [])).2 = none ∧
    mtGet (mtPut freshMemtable [107] (some [])).1 [107] = (some [], true) ∧
    (mtPut freshMemtable [107] (some [])).1.wal.data = walRecord [107] (some []) ∧
    (walLoad (mtPut freshMemtable [107] (some [])).1.wal.data).1 = [([107], none)] ∧
    mtGet (mtRecover (mtPut freshMemtable [107] (some [])).1.wal.data) [107]
      = (none, false) :=
  emptyValue_put_becomes_tombstone_after_recovery [107] (by decide)

end SiltKV
